/-
Verification of ElementUtilities (Source/Core/ElementUtilities.cpp) against its
natural-language specification.

The C++ source is shallowly embedded: each function in the excerpt becomes an
executable Lean definition operating on explicit records that stand for the
narrow collaborator interfaces (element tree queries, computed style values,
render boundary, binding factory).  Quantities that the excerpt obtains from
external collaborators (absolute offsets, snapped box rectangles, built boxes)
appear as input data carried by those records; the control flow and arithmetic
of the excerpt itself is reproduced faithfully.
-/
import Mathlib

namespace RmlVerify

/-! ## Vectors -/

/-- Integer 2-vector, standing for `Vector2i`. -/
structure Vec2i where
  x : Int
  y : Int
deriving DecidableEq, Repr

/-- Componentwise maximum (`Math::Max` on `Vector2i`). -/
def vmax (u v : Vec2i) : Vec2i := ⟨max u.x v.x, max u.y v.y⟩

/-- Componentwise minimum (`Math::Min` on `Vector2i`). -/
def vmin (u v : Vec2i) : Vec2i := ⟨min u.x v.x, min u.y v.y⟩

/-- Componentwise addition on `Vector2i`. -/
def vadd (u v : Vec2i) : Vec2i := ⟨u.x + v.x, u.y + v.y⟩

/-- Componentwise subtraction on `Vector2i`. -/
def vsub (u v : Vec2i) : Vec2i := ⟨u.x - v.x, u.y - v.y⟩

/-- The sentinel `Vector2i(-1, -1)` marking an unset clip region. -/
def unsetVec : Vec2i := ⟨-1, -1⟩

/-! ## Clip directives (`Style::Clip`) -/

/-- The clip directive of an element's computed values: `Style::Clip`, whose
type is `Auto`, `None`, `Always` or a number of clip levels to ignore. -/
inductive ClipTy where
  | auto
  | none
  | always
  | number (n : Nat)
deriving DecidableEq, Repr

/-- `Style::Clip::GetNumber`: the carried ignore-count, zero for the
non-numeric directives. -/
def ClipTy.getNumber : ClipTy → Nat
  | ClipTy.number n => n
  | _ => 0

/-! ## Ancestors on the offset-parent chain

`GetClippingRegion` walks the target's offset-parent chain.  For each ancestor
it reads computed values (overflow on both axes, clip directive), scroll
metrics (client/scroll width and height, floats, here rationals) and the
pixel-snapped client rectangle.  `GetAbsoluteOffset`, `Box::GetSize` and
`Math::SnapToPixelGrid` live outside the excerpt; the record therefore carries
their combined result directly: the snapped integer client rectangle. -/

structure AncestorInfo where
  clip : ClipTy
  /-- `overflow_x() == Style::Overflow::Visible` -/
  overflowXVisible : Bool
  /-- `overflow_y() == Style::Overflow::Visible` -/
  overflowYVisible : Bool
  clientWidth : ℚ
  scrollWidth : ℚ
  clientHeight : ℚ
  scrollHeight : ℚ
  /-- snapped absolute origin of the client area (`element_origin`) -/
  origin : Vec2i
  /-- snapped dimensions of the client area (`element_dimensions`) -/
  dims : Vec2i
deriving DecidableEq, Repr

/-- `clip_enabled`: overflow is restricted (not `Visible`) on some axis. -/
def clipEnabledB (a : AncestorInfo) : Bool :=
  !a.overflowXVisible || !a.overflowYVisible

/-- The overflow test guarding the merge: the scrollable extent strictly
exceeds the client extent by more than half a pixel on some axis. -/
def hasOverflowB (a : AncestorInfo) : Bool :=
  decide (a.clientWidth < a.scrollWidth - (1 : ℚ)/2) ||
  decide (a.clientHeight < a.scrollHeight - (1 : ℚ)/2)

/-- The snapped client rectangle an ancestor contributes. -/
def rectOf (a : AncestorInfo) : Vec2i × Vec2i := (a.origin, a.dims)

/-- The non-seeding branch of the merge: intersect two rectangles, clamping
the dimensions to be non-negative. -/
def interRect (r s : Vec2i × Vec2i) : Vec2i × Vec2i :=
  (vmax r.1 s.1, vmax ⟨0, 0⟩ (vsub (vmin (vadd r.1 r.2) (vadd s.1 s.2)) (vmax r.1 s.1)))

/-- Merging an ancestor rectangle into the running region: the first clipping
ancestor seeds the region (both components still the unset sentinel),
subsequent ones intersect. -/
def mergeRegion (o d eo ed : Vec2i) : Vec2i × Vec2i :=
  if o = unsetVec ∧ d = unsetVec then (eo, ed)
  else interRect (o, d) (eo, ed)

/-- One iteration of the ancestor walk in
`ElementUtilities::GetClippingRegion`: merge the ancestor's rectangle when the
region is not being ignored, consume one ignore level when the ancestor
restricts overflow, then absorb the ancestor's own ignore-count via max.
Returns the updated ignore-count and region. -/
def clipStep (a : AncestorInfo) (n : Nat) (o d : Vec2i) : Nat × Vec2i × Vec2i :=
  let ce := clipEnabledB a
  let ca := decide (a.clip = ClipTy.always)
  let od :=
    if (ca || ce) && decide (n = 0) then
      if ca || hasOverflowB a then mergeRegion o d a.origin a.dims else (o, d)
    else (o, d)
  let n1 := if decide (0 < n) && ce then n - 1 else n
  (Nat.max n1 a.clip.getNumber, od)

/-- The ancestor walk of `ElementUtilities::GetClippingRegion` (the `while`
loop over the offset-parent chain), with the running ignore-count and the
running region threaded explicitly; a `none` directive on an ancestor breaks
out of the walk after that ancestor's step. -/
def clipLoop : List AncestorInfo → Nat → Vec2i → Vec2i → Vec2i × Vec2i
  | [], _, o, d => (o, d)
  | a :: rest, n, o, d =>
    let s := clipStep a n o d
    if a.clip = ClipTy.none then s.2 else clipLoop rest s.1 s.2.1 s.2.2

/-- `ElementUtilities::GetClippingRegion`: returns the written
origin/dimensions together with the boolean result
`clip_dimensions.x >= 0 && clip_dimensions.y >= 0`. -/
def getClippingRegion (targetClip : ClipTy) (ancestors : List AncestorInfo) :
    Bool × Vec2i × Vec2i :=
  if targetClip = ClipTy.none then (false, unsetVec, unsetVec)
  else
    let od := clipLoop ancestors targetClip.getNumber unsetVec unsetVec
    ((decide (0 ≤ od.2.x) && decide (0 ≤ od.2.y)), od.1, od.2)

/-- Left-to-right intersection of a list of rectangles, seeded by the first
one; the empty list yields the unset sentinel.  This is the region the walk
accumulates from the rectangles it merges. -/
def interAll : List (Vec2i × Vec2i) → Vec2i × Vec2i
  | [] => (unsetVec, unsetVec)
  | r :: rs => rs.foldl interRect r

/-- An ancestor that clips by restricted, actually-overflowing overflow and
carries no clip directive of its own; its snapped dimensions are
non-negative, as box sizes are. -/
def normalAnc (a : AncestorInfo) : Prop :=
  a.clip = ClipTy.auto ∧ clipEnabledB a = true ∧ hasOverflowB a = true ∧
  0 ≤ a.dims.x ∧ 0 ≤ a.dims.y

/-- An ancestor that neither clips (overflow visible on both axes) nor
carries a clip directive: the walk passes through it unchanged. -/
def inertAnc (a : AncestorInfo) : Prop :=
  a.clip = ClipTy.auto ∧ clipEnabledB a = false

instance (a : AncestorInfo) : Decidable (normalAnc a) := by
  unfold normalAnc
  infer_instance

instance (a : AncestorInfo) : Decidable (inertAnc a) := by
  unfold inertAnc
  infer_instance

/-! ## Clip region applier (`SetClippingRegion` / `ApplyActiveClipRegion`)

`Context::SetActiveClipRegion` / `Context::GetActiveClipRegion` are outside
the excerpt (Context.cpp).  Modelled from the spec: the render context stores
one "currently active" clip region as origin/dimensions, the unset sentinel
(negative dimensions) meaning clipping disabled; setting it stores the given
origin and dimensions verbatim. -/

structure CtxState where
  origin : Vec2i
  dims : Vec2i
deriving DecidableEq, Repr

/-- Modelled from the spec: `Context::GetActiveClipRegion` — reports whether
clipping is enabled (stored region not the unset sentinel, i.e. both
dimensions non-negative) together with the stored origin and dimensions. -/
def getActiveClipRegion (c : CtxState) : Bool × Vec2i × Vec2i :=
  ((decide (0 ≤ c.dims.x) && decide (0 ≤ c.dims.y)), c.origin, c.dims)

/-- Modelled from the spec: `Context::SetActiveClipRegion` — stores the given
region as the active one. -/
def setActiveClipRegion (_ : CtxState) (o d : Vec2i) : CtxState :=
  { origin := o, dims := d }

/-- A call made on the render boundary's scissor interface. -/
inductive ScissorCall where
  | enableScissorRegion (enable : Bool)
  | setScissorRegion (x y w h : Int)
deriving DecidableEq, Repr

/-- `ElementUtilities::ApplyActiveClipRegion`: reads the context's active
region and pushes it to the render interface; emits nothing when no render
interface is available. -/
def applyActiveClipRegion (hasRenderInterface : Bool) (c : CtxState) :
    List ScissorCall :=
  if hasRenderInterface then
    let r := getActiveClipRegion c
    ScissorCall.enableScissorRegion r.1 ::
      (if r.1 then [ScissorCall.setScissorRegion r.2.1.x r.2.1.y r.2.2.x r.2.2.y] else [])
  else []

/-- The resolution step of `SetClippingRegion`:
`bool clip = element && GetClippingRegion(...)` with the out-parameters left
at the sentinel when the element pointer is null.  The element argument
carries the target's clip directive and offset-parent chain; `Option.none`
stands for a null element pointer. -/
def resolveElementClip (element : Option (ClipTy × List AncestorInfo)) :
    Bool × Vec2i × Vec2i :=
  match element with
  | Option.none => (false, unsetVec, unsetVec)
  | Option.some (tc, ancestors) => getClippingRegion tc ancestors

/-- `ElementUtilities::SetClippingRegion` for a resolvable context: resolve
the element's region, compare with the active one, and rewrite/push only on
a delta.  Returns the call result, the context after the call, and the
boundary calls emitted. -/
def setClippingRegion (hasRenderInterface : Bool)
    (element : Option (ClipTy × List AncestorInfo)) (c : CtxState) :
    Bool × CtxState × List ScissorCall :=
  let resolved := resolveElementClip element
  let clip := resolved.1
  let clipOrigin := resolved.2.1
  let clipDimensions := resolved.2.2
  let current := getActiveClipRegion c
  if current.1 ≠ clip ∨ (clip = true ∧ (clipOrigin ≠ current.2.1 ∨ clipDimensions ≠ current.2.2)) then
    let c' := setActiveClipRegion c clipOrigin clipDimensions
    (true, c', applyActiveClipRegion hasRenderInterface c')
  else
    (true, c, [])

/-! ## Transform submitter (`ApplyTransform`)

The function-local static cache `old_transform_ptr` / `old_transform_value`
becomes an explicit state record.  Transform objects are modelled as a pointer
identity (a `Nat`) paired with the matrix value it points at; the cached
pointer is only ever compared, never dereferenced.  The matrix type is left
abstract with decidable equality. -/

structure TransState (α : Type) where
  oldPtr : Option Nat
  oldValue : α
deriving DecidableEq, Repr

/-- `ElementUtilities::ApplyTransform`: returns the call result, the
`SetTransform` boundary call when one is issued (carrying the submitted
pointer), and the updated cache state.  `newT` is the element's resolved
transform pointer: `Option.none` for a null pointer, otherwise identity and
pointed-at value. -/
def applyTransform {α : Type} [DecidableEq α] (hasRenderInterface : Bool)
    (st : TransState α) (newT : Option (Nat × α)) :
    Bool × Option (Option (Nat × α)) × TransState α :=
  if hasRenderInterface then
    let newPtr := Option.map Prod.fst newT
    if st.oldPtr = newPtr then (true, Option.none, st)
    else
      let submit :=
        match st.oldPtr, newT with
        | Option.none, _ => true
        | Option.some _, Option.none => true
        | Option.some _, Option.some (_, v) => decide (st.oldValue ≠ v)
      if submit then
        let newValue :=
          match newT with
          | Option.some (_, v) => v
          | Option.none => st.oldValue
        (true, Option.some newT, { oldPtr := newPtr, oldValue := newValue })
      else
        (true, Option.none, { st with oldPtr := newPtr })
  else (false, Option.none, st)

/-- A sequence of `ApplyTransform` calls within one render pass: returns the
final cache state and the list of `SetTransform` submissions made. -/
def runTransforms {α : Type} [DecidableEq α] (hasRenderInterface : Bool)
    (st : TransState α) : List (Option (Nat × α)) → TransState α × List (Option (Nat × α))
  | [] => (st, [])
  | t :: ts =>
    let r := applyTransform hasRenderInterface st t
    let rest := runTransforms hasRenderInterface r.2.2 ts
    (rest.1, (match r.2.1 with
              | Option.some s => [s]
              | Option.none => []) ++ rest.2)

/-! ## Box positioner (`PositionElement` / `SetBox` / `SetElementOffset`)

`LayoutDetails::BuildBox` and the box structure itself live outside the
excerpt; the built box is carried as input data, exposing exactly the
quantities the excerpt reads from it. -/

/-- The box quantities the excerpt reads: margin-area size, margin-left and
margin-top edges, and the content-area position and size. -/
structure PBox where
  marginSize : ℚ × ℚ
  marginLeft : ℚ
  marginTop : ℚ
  contentPos : ℚ × ℚ
  contentSize : ℚ × ℚ
deriving DecidableEq, Repr

/-- The element state `PositionElement` may mutate: its box and its relative
offset, plus whether it has a parent node. -/
structure PosElem where
  hasParent : Bool
  box : Option PBox
  offset : Option (ℚ × ℚ)
deriving DecidableEq, Repr

/-- External collaborator outputs consumed by `PositionElement`: the parent's
box and the box that `SetBox` builds for the element. -/
structure PosEnv where
  parentBox : PBox
  builtBox : PBox
deriving DecidableEq, Repr

/-- The anchor handling of `PositionElement`: a `RIGHT` flag replaces the
horizontal offset by `containing_block.x - (element_block.x + offset.x)`,
and `BOTTOM` symmetrically on the vertical axis. -/
def resolveAnchorOffset (anchorRight anchorBottom : Bool)
    (containingBlock elementBlock offset : ℚ × ℚ) : ℚ × ℚ :=
  (if anchorRight then containingBlock.1 - (elementBlock.1 + offset.1) else offset.1,
   if anchorBottom then containingBlock.2 - (elementBlock.2 + offset.2) else offset.2)

/-- `SetElementOffset`: the final relative offset starts from the parent
box's content-area position, adds the given offset, then the element's own
margin-left and margin-top edges. -/
def setElementOffset (parentBox elemBox : PBox) (offset : ℚ × ℚ) : ℚ × ℚ :=
  (parentBox.contentPos.1 + offset.1 + elemBox.marginLeft,
   parentBox.contentPos.2 + offset.2 + elemBox.marginTop)

/-- `ElementUtilities::PositionElement`: fails (returning the state
untouched) exactly when the element has no parent; otherwise sets the built
box, resolves the anchor against the parent's content-area size and the
element's margin-area size, and sets the offset. -/
def positionElement (env : PosEnv) (st : PosElem) (offset : ℚ × ℚ)
    (anchorRight anchorBottom : Bool) : Bool × PosElem :=
  if st.hasParent then
    let box := env.builtBox
    let containingBlock := env.parentBox.contentSize
    let elementBlock := box.marginSize
    let resolved := resolveAnchorOffset anchorRight anchorBottom containingBlock elementBlock offset
    (true, { st with
              box := Option.some box,
              offset := Option.some (setElementOffset env.parentBox box resolved) })
  else (false, st)

/-! ## Element search (`GetElementById` / `GetElementsByTagName` /
`GetElementsByClassName`) -/

/-- An element tree node, carrying the data the three search utilities read:
id, tag name, set classes, and the ordered children. -/
inductive ETree where
  | mk (eid : String) (tag : String) (classes : List String) (children : List ETree)

/-- `Element::GetId`. -/
def ETree.eid : ETree → String
  | ETree.mk i _ _ _ => i

/-- `Element::GetTagName`. -/
def ETree.tag : ETree → String
  | ETree.mk _ t _ _ => t

/-- The set of classes; `Element::IsClassSet` is membership here. -/
def ETree.classes : ETree → List String
  | ETree.mk _ _ c _ => c

/-- The ordered children (`GetNumChildren` / `GetChild`). -/
def ETree.children : ETree → List ETree
  | ETree.mk _ _ _ cs => cs

mutual

/-- Number of nodes in a tree (termination measure for the queue walks). -/
def ETree.size : ETree → Nat
  | ETree.mk _ _ _ cs => 1 + ETree.sizeList cs

/-- Total number of nodes in a forest. -/
def ETree.sizeList : List ETree → Nat
  | [] => 0
  | t :: ts => ETree.size t + ETree.sizeList ts

end

/-- Total node count distributes over forest concatenation. -/
theorem ETree.sizeList_append (l₁ l₂ : List ETree) :
    ETree.sizeList (l₁ ++ l₂) = ETree.sizeList l₁ + ETree.sizeList l₂ := by
  induction l₁ with
  | nil => simp [ETree.sizeList]
  | cons t ts ih =>
    simp only [List.cons_append, ETree.sizeList, List.append_eq, ih]
    omega

/-- A node's children are a strictly smaller forest than the node. -/
theorem ETree.sizeList_children_lt : ∀ t : ETree,
    ETree.sizeList t.children < ETree.size t
  | ETree.mk _ _ _ cs => by simp [ETree.size, ETree.children]

/-- Popping the queue front and pushing its children shrinks the measure of
the breadth-first queue. -/
theorem ETree.queue_measure_lt (e : ETree) (rest : List ETree) :
    ETree.sizeList (rest ++ e.children) < ETree.sizeList (e :: rest) := by
  have h := ETree.sizeList_children_lt e
  simp only [ETree.sizeList, ETree.sizeList_append]
  omega

/-- The breadth-first queue loop of `GetElementById`: pop the front, return
it on an id match, otherwise push all its children and continue. -/
def bfsFind (id : String) (q : List ETree) : Option ETree :=
  match q with
  | [] => Option.none
  | e :: rest =>
    if e.eid = id then Option.some e
    else bfsFind id (rest ++ e.children)
termination_by ETree.sizeList q
decreasing_by
  exact ETree.queue_measure_lt _ _

/-- The breadth-first queue loop shared by `GetElementsByTagName` and
`GetElementsByClassName`: pop the front, append it to the output list when
the predicate matches, push all its children and continue. -/
def bfsCollect (p : ETree → Bool) (acc : List ETree) (q : List ETree) : List ETree :=
  match q with
  | [] => acc
  | e :: rest =>
    bfsCollect p (if p e then acc ++ [e] else acc) (rest ++ e.children)
termination_by ETree.sizeList q
decreasing_by
  exact ETree.queue_measure_lt _ _

/-- `ElementUtilities::GetElementById`: breadth-first search seeded with the
root element itself. -/
def getElementById (root : ETree) (id : String) : Option ETree :=
  bfsFind id [root]

/-- `ElementUtilities::GetElementsByTagName`: breadth-first search seeded
with the root's children only, appending matches to the given list. -/
def getElementsByTagName (elements : List ETree) (root : ETree) (tag : String) :
    List ETree :=
  bfsCollect (fun e => decide (e.tag = tag)) elements root.children

/-- `ElementUtilities::GetElementsByClassName`: breadth-first search seeded
with the root's children only, appending matches to the given list. -/
def getElementsByClassName (elements : List ETree) (root : ETree) (className : String) :
    List ETree :=
  bfsCollect (fun e => decide (className ∈ e.classes)) elements root.children

/-- All nodes of a forest (each root together with all its descendants). -/
def ETree.descList (l : List ETree) : List ETree :=
  match l with
  | [] => []
  | t :: ts => t :: (ETree.descList t.children ++ ETree.descList ts)
termination_by ETree.sizeList l
decreasing_by
  · have h := ETree.sizeList_children_lt t
    simp only [ETree.sizeList]
    omega
  · have h := ETree.sizeList_children_lt t
    simp only [ETree.sizeList]
    omega

/-! ## Data binding discoverer (`ApplyDataViewsControllersInternal`)

The factory (`Factory::InstanceDataView`, `Factory::InstanceDataController`,
`Factory::IsStructuralDataView`) and the views'/controllers' `Initialize`
methods are external collaborators, carried as functions in an environment
record.  An initializer receives the candidate's type, expression and
modifier together with the element's current attribute list, and returns its
success flag along with the (possibly rewritten) attribute list — this models
that initialization logic may itself add or remove element attributes. -/

structure BindEnv where
  instanceView : String → Bool → Bool
  instanceController : String → Bool
  isStructuralView : String → Bool
  viewInit : String → String → String → List (String × String) → Bool × List (String × String)
  controllerInit : String → String → String → List (String × String) → Bool × List (String × String)

/-- The element/model state the discoverer touches: the element's attribute
list (names unique, in iteration order), whether a data model is associated,
and the model's collections of added views and controllers (by type name). -/
structure BindState where
  hasDataModel : Bool
  attrs : List (String × String)
  views : List String
  controllers : List String
deriving DecidableEq, Repr

/-- The attribute naming convention `data-[type]-[modifier]`: requires more
than five characters and the exact prefix `data-`; the type is everything up
to the next `-` (or the end), the modifier everything after it (empty when
absent). -/
def parseDataAttribute (name : String) : Option (String × String) :=
  let cs := name.toList
  if 5 < cs.length ∧ cs.take 5 = ['d', 'a', 't', 'a', '-'] then
    let rest := cs.drop 5
    let ty := rest.takeWhile (fun c => c != '-')
    let after := rest.dropWhile (fun c => c != '-')
    Option.some (String.mk ty, String.mk (after.drop 1))
  else Option.none

/-- `ViewControllerInitializer` less the constructed objects themselves: the
data collected during discovery that phase two needs. -/
structure VCInit where
  type : String
  modifierOrInnerRml : String
  expression : String
  hasView : Bool
  hasController : Bool
deriving DecidableEq, Repr

/-- The discovery phase: one pass over the attribute list, collecting
candidate descriptors into a side list without touching the element.
`Option.none` models the early `return false` taken when a structural type is
encountered in non-structural mode. -/
def discover (env : BindEnv) (constructStructuralView : Bool) (innerRml : String) :
    List (String × String) → Option (List VCInit)
  | [] => Option.some []
  | attr :: rest =>
    match parseDataAttribute attr.1 with
    | Option.none => discover env constructStructuralView innerRml rest
    | Option.some (tyName, modifier) =>
      if constructStructuralView then
        let cand : List VCInit :=
          if env.instanceView tyName true then
            [{ type := tyName, modifierOrInnerRml := innerRml, expression := attr.2,
               hasView := true, hasController := false }]
          else []
        Option.map (fun l => cand ++ l) (discover env constructStructuralView innerRml rest)
      else
        if env.isStructuralView tyName then Option.none
        else
          let hasV := env.instanceView tyName false
          let hasC := env.instanceController tyName
          let cand : List VCInit :=
            if hasV || hasC then
              [{ type := tyName, modifierOrInnerRml := modifier, expression := attr.2,
                 hasView := hasV, hasController := hasC }]
            else []
          Option.map (fun l => cand ++ l) (discover env constructStructuralView innerRml rest)

/-- An `Initialize` call made during phase two, with the data it received and
whether it succeeded. -/
structure InitCall where
  isView : Bool
  type : String
  expression : String
  modifierOrInnerRml : String
  success : Bool
deriving DecidableEq, Repr

/-- The running state of phase two: the accumulated `result` flag, the
element/model state, and the trace of `Initialize` calls made so far. -/
structure Phase2 where
  result : Bool
  state : BindState
  trace : List InitCall
deriving Repr

/-- Phase two, view half of one candidate: call `Initialize` (which may
rewrite the attribute list); on success hand the view to the data model and
set the result flag, otherwise discard it (a diagnostic is logged). -/
def runViewInit (env : BindEnv) (i : VCInit) (p : Phase2) : Phase2 :=
  if i.hasView then
    let r := env.viewInit i.type i.expression i.modifierOrInnerRml p.state.attrs
    { result := p.result || r.1,
      state := { p.state with
                  attrs := r.2,
                  views := if r.1 then p.state.views ++ [i.type] else p.state.views },
      trace := p.trace ++
        [{ isView := true, type := i.type, expression := i.expression,
           modifierOrInnerRml := i.modifierOrInnerRml, success := r.1 }] }
  else p

/-- Phase two, controller half of one candidate. -/
def runControllerInit (env : BindEnv) (i : VCInit) (p : Phase2) : Phase2 :=
  if i.hasController then
    let r := env.controllerInit i.type i.expression i.modifierOrInnerRml p.state.attrs
    { result := p.result || r.1,
      state := { p.state with
                  attrs := r.2,
                  controllers := if r.1 then p.state.controllers ++ [i.type] else p.state.controllers },
      trace := p.trace ++
        [{ isView := false, type := i.type, expression := i.expression,
           modifierOrInnerRml := i.modifierOrInnerRml, success := r.1 }] }
  else p

/-- Phase two: initialize every candidate of the side list in order, view
before controller within one candidate. -/
def runInits (env : BindEnv) : List VCInit → Phase2 → Phase2
  | [], p => p
  | i :: rest, p => runInits env rest (runControllerInit env i (runViewInit env i p))

/-- `ApplyDataViewsControllersInternal`: nothing happens without a data
model; otherwise discovery runs to completion over the current attribute
list, and only then are the collected candidates initialized.  Returns the
result flag, the final state, and the trace of `Initialize` calls. -/
def applyDataViewsControllersInternal (env : BindEnv) (constructStructuralView : Bool)
    (innerRml : String) (st : BindState) : Bool × BindState × List InitCall :=
  if st.hasDataModel then
    match discover env constructStructuralView innerRml st.attrs with
    | Option.none => (false, st, [])
    | Option.some l =>
      let p := runInits env l { result := false, state := st, trace := [] }
      (p.result, p.state, p.trace)
  else (false, st, [])

/-- `ElementUtilities::ApplyDataViewsControllers` (non-structural mode). -/
def applyDataViewsControllers (env : BindEnv) (st : BindState) :
    Bool × BindState × List InitCall :=
  applyDataViewsControllersInternal env false "" st

/-- `ElementUtilities::ApplyStructuralDataViews`. -/
def applyStructuralDataViews (env : BindEnv) (innerRml : String) (st : BindState) :
    Bool × BindState × List InitCall :=
  applyDataViewsControllersInternal env true innerRml st

/-- The candidate-independent summary of an `Initialize` call: which half it
is and the data passed, ignoring the success flag and the attribute state. -/
def projCall (c : InitCall) : Bool × String × String × String :=
  (c.isView, c.type, c.expression, c.modifierOrInnerRml)

/-- The call schedule the two-phase protocol predicts from a side list alone:
for every candidate, a view call when it holds a view and a controller call
when it holds a controller, in list order — no candidate is dropped by an
earlier candidate's failure. -/
def plannedCalls : List VCInit → List (Bool × String × String × String)
  | [] => []
  | i :: rest =>
    (if i.hasView then [(true, i.type, i.expression, i.modifierOrInnerRml)] else []) ++
    (if i.hasController then [(false, i.type, i.expression, i.modifierOrInnerRml)] else []) ++
    plannedCalls rest

/-! ## Concrete fixtures used by witnesses and counterexamples -/

/-- An ancestor forcing clipping via `clip: always` while its overflow is
unrestricted (`visible` on both axes) and nothing overflows. -/
def ancAlwaysVisible : AncestorInfo :=
  { clip := ClipTy.always, overflowXVisible := true, overflowYVisible := true,
    clientWidth := 10, scrollWidth := 10, clientHeight := 10, scrollHeight := 10,
    origin := ⟨0, 0⟩, dims := ⟨10, 10⟩ }

/-- An ordinary overflow-clipping ancestor: overflow hidden on both axes and
scrollable extent exceeding the client extent. -/
def ancOverflowClip : AncestorInfo :=
  { clip := ClipTy.auto, overflowXVisible := false, overflowYVisible := false,
    clientWidth := 5, scrollWidth := 10, clientHeight := 5, scrollHeight := 10,
    origin := ⟨2, 2⟩, dims := ⟨20, 20⟩ }

/-- A second overflow-clipping ancestor, horizontally disjoint from
`ancDisjointA`. -/
def ancDisjointA : AncestorInfo :=
  { clip := ClipTy.auto, overflowXVisible := false, overflowYVisible := false,
    clientWidth := 5, scrollWidth := 10, clientHeight := 5, scrollHeight := 10,
    origin := ⟨0, 0⟩, dims := ⟨10, 10⟩ }

/-- Overflow-clipping ancestor whose rectangle overlaps `ancDisjointA` on the
vertical axis only, so their intersection is empty. -/
def ancDisjointB : AncestorInfo :=
  { clip := ClipTy.auto, overflowXVisible := false, overflowYVisible := false,
    clientWidth := 5, scrollWidth := 10, clientHeight := 5, scrollHeight := 10,
    origin := ⟨20, 3⟩, dims := ⟨10, 10⟩ }

/-- An ancestor that neither clips nor carries a directive. -/
def ancInert : AncestorInfo :=
  { clip := ClipTy.auto, overflowXVisible := true, overflowYVisible := true,
    clientWidth := 10, scrollWidth := 10, clientHeight := 10, scrollHeight := 10,
    origin := ⟨1, 1⟩, dims := ⟨8, 8⟩ }

/-- An ancestor carrying the `none` directive (and clipping overflow, so its
own rectangle is still merged before the walk halts). -/
def ancNoneClip : AncestorInfo :=
  { clip := ClipTy.none, overflowXVisible := false, overflowYVisible := false,
    clientWidth := 5, scrollWidth := 10, clientHeight := 5, scrollHeight := 10,
    origin := ⟨1, 1⟩, dims := ⟨30, 30⟩ }

/-- Positioning collaborator outputs for witnesses: containing block of
width 200, built element box of margin-area width 50. -/
def posEnvWit : PosEnv :=
  { parentBox := { marginSize := (0, 0), marginLeft := 0, marginTop := 0,
                   contentPos := (7, 8), contentSize := (200, 300) }
    builtBox := { marginSize := (50, 60), marginLeft := 5, marginTop := 6,
                  contentPos := (0, 0), contentSize := (40, 50) } }

/-- An element with a parent and nothing positioned yet. -/
def posStWit : PosElem :=
  { hasParent := true, box := Option.none, offset := Option.none }

/-- A parentless element that already carries a box and an offset, to
exhibit that a failing call leaves both untouched. -/
def posStOrphan : PosElem :=
  { hasParent := false
    box := Option.some { marginSize := (3, 3), marginLeft := 1, marginTop := 1,
                         contentPos := (2, 2), contentSize := (1, 1) }
    offset := Option.some (9, 9) }

/-- A context with no active clip region (the unset sentinel). -/
def ctxWit : CtxState := { origin := ⟨-1, -1⟩, dims := ⟨-1, -1⟩ }

/-- A two-node tree whose root and child both carry tag `div` and class
`x`. -/
def childWit : ETree := ETree.mk "a" "div" ["x"] []

/-- Root of the witness tree. -/
def treeWit : ETree := ETree.mk "r" "div" ["x"] [childWit]

/-- A binding environment for witnesses: `value` and `attr` instance views,
`event` instances a controller, `for` is the structural view type; the
`attr` view fails to initialize, and every view initializer appends an
attribute to the element (mutating it). -/
def envWitA : BindEnv :=
  { instanceView := fun ty _ => ty == "value" || ty == "attr" || ty == "for"
    instanceController := fun ty => ty == "event"
    isStructuralView := fun ty => ty == "for"
    viewInit := fun ty _ _ attrs => (ty != "attr", attrs ++ [("added", "1")])
    controllerInit := fun _ _ _ attrs => (true, attrs) }

/-- Same factory as `envWitA` but with initializers that behave differently
(different success verdicts and different attribute rewriting). -/
def envWitB : BindEnv :=
  { instanceView := fun ty _ => ty == "value" || ty == "attr" || ty == "for"
    instanceController := fun ty => ty == "event"
    isStructuralView := fun ty => ty == "for"
    viewInit := fun _ _ _ _ => (true, [])
    controllerInit := fun _ _ _ attrs => (false, attrs.drop 1) }

/-- An element with a data model and a mix of binding and ordinary
attributes. -/
def stWit : BindState :=
  { hasDataModel := true
    attrs := [("data-value", "x"), ("class", "c"), ("data-attr-src", "y"),
              ("data-event-click", "z")]
    views := [], controllers := [] }

/-! ## Clipping lemmas -/

theorem vmax_comm (u v : Vec2i) : vmax u v = vmax v u := by
  simp only [vmax]
  rw [max_comm u.x v.x, max_comm u.y v.y]

theorem vmin_comm (u v : Vec2i) : vmin u v = vmin v u := by
  simp only [vmin]
  rw [min_comm u.x v.x, min_comm u.y v.y]

theorem interRect_comm (r s : Vec2i × Vec2i) : interRect r s = interRect s r := by
  simp only [interRect]
  rw [vmax_comm r.1 s.1, vmin_comm (vadd r.1 r.2) (vadd s.1 s.2)]

theorem interRect_dims_nonneg (r s : Vec2i × Vec2i) :
    0 ≤ (interRect r s).2.x ∧ 0 ≤ (interRect r s).2.y := by
  constructor <;> simp [interRect, vmax]

theorem foldl_interRect_dims_nonneg (rs : List (Vec2i × Vec2i)) :
    ∀ r : Vec2i × Vec2i, 0 ≤ r.2.x → 0 ≤ r.2.y →
      0 ≤ (rs.foldl interRect r).2.x ∧ 0 ≤ (rs.foldl interRect r).2.y := by
  induction rs with
  | nil => intro r hx hy; exact ⟨hx, hy⟩
  | cons s ss ih =>
    intro r _ _
    simpa using ih (interRect r s) (interRect_dims_nonneg r s).1 (interRect_dims_nonneg r s).2

theorem ne_unset_of_nonneg {d : Vec2i} (h : 0 ≤ d.x) : d ≠ unsetVec := by
  intro he
  rw [he] at h
  simp [unsetVec] at h

theorem mergeRegion_seed (eo ed : Vec2i) :
    mergeRegion unsetVec unsetVec eo ed = (eo, ed) := by
  simp [mergeRegion]

theorem mergeRegion_inter (o d eo ed : Vec2i) (h : d ≠ unsetVec) :
    mergeRegion o d eo ed = interRect (o, d) (eo, ed) := by
  simp [mergeRegion, h]

theorem clipStep_inert (a : AncestorInfo) (h : inertAnc a) (n : Nat) (o d : Vec2i) :
    clipStep a n o d = (n, o, d) := by
  obtain ⟨hclip, hce⟩ := h
  simp [clipStep, hclip, hce, ClipTy.getNumber]

theorem clipStep_skip (a : AncestorInfo) (n : Nat) (hn : 0 < n) (o d : Vec2i) :
    clipStep a n o d =
      (Nat.max (if clipEnabledB a then n - 1 else n) a.clip.getNumber, o, d) := by
  have hne : ¬(n = 0) := Nat.pos_iff_ne_zero.mp hn
  simp [clipStep, hne, hn]

theorem clipStep_normal_zero (a : AncestorInfo) (h : normalAnc a) (o d : Vec2i) :
    clipStep a 0 o d = (0, mergeRegion o d a.origin a.dims) := by
  obtain ⟨hclip, hce, hov, _, _⟩ := h
  simp [clipStep, hclip, hce, hov, ClipTy.getNumber]

theorem clipLoop_inert (a : AncestorInfo) (h : inertAnc a)
    (rest : List AncestorInfo) (n : Nat) (o d : Vec2i) :
    clipLoop (a :: rest) n o d = clipLoop rest n o d := by
  have hnone : ¬(a.clip = ClipTy.none) := by simp [h.1]
  simp [clipLoop, clipStep_inert a h n o d, hnone]

theorem clipLoop_skip (a : AncestorInfo) (rest : List AncestorInfo) (n : Nat)
    (o d : Vec2i) (hn : 0 < n) (hnone : a.clip ≠ ClipTy.none) :
    clipLoop (a :: rest) n o d =
      clipLoop rest (Nat.max (if clipEnabledB a then n - 1 else n) a.clip.getNumber) o d := by
  simp [clipLoop, clipStep_skip a n hn o d, hnone]

theorem clipLoop_normal_skip (a : AncestorInfo) (h : normalAnc a)
    (rest : List AncestorInfo) (n : Nat) (o d : Vec2i) :
    clipLoop (a :: rest) (n + 1) o d = clipLoop rest n o d := by
  have hnone : a.clip ≠ ClipTy.none := by simp [h.1]
  rw [clipLoop_skip a rest (n + 1) o d (Nat.succ_pos n) hnone]
  simp [h.1, h.2.1, ClipTy.getNumber]

theorem clipLoop_normal_zero (a : AncestorInfo) (h : normalAnc a)
    (rest : List AncestorInfo) (o d : Vec2i) (hd : 0 ≤ d.x) :
    clipLoop (a :: rest) 0 o d =
      clipLoop rest 0 (interRect (o, d) (rectOf a)).1 (interRect (o, d) (rectOf a)).2 := by
  have hnone : ¬(a.clip = ClipTy.none) := by simp [h.1]
  simp [clipLoop, clipStep_normal_zero a h o d,
        mergeRegion_inter o d a.origin a.dims (ne_unset_of_nonneg hd), hnone, rectOf]

theorem clipLoop_normal_seed (a : AncestorInfo) (h : normalAnc a)
    (rest : List AncestorInfo) :
    clipLoop (a :: rest) 0 unsetVec unsetVec = clipLoop rest 0 a.origin a.dims := by
  have hnone : ¬(a.clip = ClipTy.none) := by simp [h.1]
  simp [clipLoop, clipStep_normal_zero a h unsetVec unsetVec, mergeRegion_seed, hnone]

theorem filter_inert_nil (l : List AncestorInfo) (h : ∀ c ∈ l, inertAnc c) :
    l.filter clipEnabledB = [] := by
  induction l with
  | nil => rfl
  | cons c cs ih =>
    have hc := (h c (List.mem_cons_self c cs)).2
    simp [List.filter_cons, hc, ih fun x hx => h x (List.mem_cons_of_mem c hx)]

theorem clipLoop_merge_phase (l : List AncestorInfo)
    (hl : ∀ a ∈ l, normalAnc a ∨ inertAnc a) :
    ∀ o d : Vec2i, 0 ≤ d.x → 0 ≤ d.y →
      clipLoop l 0 o d = ((l.filter clipEnabledB).map rectOf).foldl interRect (o, d) := by
  induction l with
  | nil => intro o d _ _; simp [clipLoop]
  | cons a rest ih =>
    intro o d hdx hdy
    have hrest : ∀ c ∈ rest, normalAnc c ∨ inertAnc c :=
      fun x hx => hl x (List.mem_cons_of_mem a hx)
    rcases hl a (List.mem_cons_self a rest) with hn | hi
    · rw [clipLoop_normal_zero a hn rest o d hdx]
      have hnn := interRect_dims_nonneg (o, d) (rectOf a)
      rw [ih hrest _ _ hnn.1 hnn.2]
      simp [List.filter_cons, hn.2.1]
    · rw [clipLoop_inert a hi rest 0 o d]
      rw [ih hrest o d hdx hdy]
      simp [List.filter_cons, hi.2]

theorem clipLoop_main (l : List AncestorInfo) :
    ∀ N : Nat, (∀ a ∈ l, normalAnc a ∨ inertAnc a) →
      N < (l.filter clipEnabledB).length →
      clipLoop l N unsetVec unsetVec =
        interAll (((l.filter clipEnabledB).drop N).map rectOf) := by
  induction l with
  | nil => intro N _ hN; simp at hN
  | cons a rest ih =>
    intro N hl hN
    have hrest : ∀ c ∈ rest, normalAnc c ∨ inertAnc c :=
      fun x hx => hl x (List.mem_cons_of_mem a hx)
    rcases hl a (List.mem_cons_self a rest) with hn | hi
    · have hfil : (a :: rest).filter clipEnabledB = a :: rest.filter clipEnabledB := by
        simp [List.filter_cons, hn.2.1]
      cases N with
      | zero =>
        rw [clipLoop_normal_seed a hn rest]
        rw [clipLoop_merge_phase rest hrest a.origin a.dims hn.2.2.2.1 hn.2.2.2.2]
        rw [hfil]
        simp [interAll, rectOf]
      | succ m =>
        rw [clipLoop_normal_skip a hn rest m unsetVec unsetVec]
        rw [hfil] at hN ⊢
        simp only [List.length_cons, Nat.succ_lt_succ_iff] at hN
        rw [ih m hrest hN]
        simp [List.drop_succ_cons]
    · have hfil : (a :: rest).filter clipEnabledB = rest.filter clipEnabledB := by
        simp [List.filter_cons, hi.2]
      rw [clipLoop_inert a hi rest N unsetVec unsetVec]
      rw [hfil] at hN ⊢
      exact ih N hrest hN

theorem mem_filter_normal {l : List AncestorInfo}
    (hl : ∀ a ∈ l, normalAnc a ∨ inertAnc a) {c : AncestorInfo}
    (hc : c ∈ l.filter clipEnabledB) : normalAnc c := by
  rw [List.mem_filter] at hc
  rcases hl c hc.1 with hn | hi
  · exact hn
  · rw [hi.2] at hc
    exact absurd hc.2 (by simp)

theorem interAll_dims_nonneg (c : AncestorInfo) (hc : normalAnc c)
    (rs : List (Vec2i × Vec2i)) :
    0 ≤ (interAll (rectOf c :: rs)).2.x ∧ 0 ≤ (interAll (rectOf c :: rs)).2.y := by
  simp only [interAll]
  exact foldl_interRect_dims_nonneg rs (rectOf c) hc.2.2.2.1 hc.2.2.2.2

/-! ## Fixture facts -/

theorem hasOverflowB_ancOverflowClip : hasOverflowB ancOverflowClip = true := by
  norm_num [hasOverflowB, ancOverflowClip]

theorem hasOverflowB_ancDisjointA : hasOverflowB ancDisjointA = true := by
  norm_num [hasOverflowB, ancDisjointA]

theorem hasOverflowB_ancDisjointB : hasOverflowB ancDisjointB = true := by
  norm_num [hasOverflowB, ancDisjointB]

theorem normal_ancOverflowClip : normalAnc ancOverflowClip :=
  ⟨rfl, rfl, hasOverflowB_ancOverflowClip, by decide, by decide⟩

theorem normal_ancDisjointA : normalAnc ancDisjointA :=
  ⟨rfl, rfl, hasOverflowB_ancDisjointA, by decide, by decide⟩

theorem normal_ancDisjointB : normalAnc ancDisjointB :=
  ⟨rfl, rfl, hasOverflowB_ancDisjointB, by decide, by decide⟩

theorem inert_ancInert : inertAnc ancInert := ⟨rfl, rfl⟩

/-! ## Claim C1 -/

/-- **C1**, counterexample.  `ancAlwaysVisible` (first two conjuncts show
both fixtures are clipping ancestors when nothing is ignored: each alone
yields its rectangle) forces clipping via `clip: always` but has
unrestricted overflow.  With a target ignore-count of `1` over the chain
`[ancAlwaysVisible, ancOverflowClip]`, the claim requires the first clipping
ancestor to be skipped with one count consumed and the second's rectangle to
be included; the code, however, only decrements the count for
overflow-restricted ancestors, so `ancAlwaysVisible` is skipped without
consuming the count, `ancOverflowClip` is then also skipped, and the walk
ends with no region at all. -/
theorem clip_ignore_count_counterexample :
    getClippingRegion (ClipTy.number 0) [ancAlwaysVisible] =
      (true, ⟨0, 0⟩, ⟨10, 10⟩) ∧
    getClippingRegion (ClipTy.number 0) [ancOverflowClip] =
      (true, ⟨2, 2⟩, ⟨20, 20⟩) ∧
    getClippingRegion (ClipTy.number 1) [ancAlwaysVisible, ancOverflowClip] =
      (false, unsetVec, unsetVec) := by
  refine ⟨?_, ?_, ?_⟩ <;>
    norm_num [getClippingRegion, clipLoop, clipStep, clipEnabledB, hasOverflowB,
              mergeRegion, unsetVec, ancAlwaysVisible, ancOverflowClip,
              ClipTy.getNumber] <;> decide

/-- **C1** (amended).  While the running ignore-count is nonzero, a visited
ancestor (directive not `none`) contributes no rectangle; the count is
decremented exactly when the ancestor's overflow is restricted on some axis,
and the ancestor's own ignore-count is absorbed via `max` (second conjunct).
Consequently (first conjunct), when every clipping ancestor on the chain
clips by restricted, actually-overflowing overflow and carries no directive
of its own, and the remaining ancestors neither clip nor carry directives,
an ignore-count of `N` skips exactly the first `N` clipping ancestors and
the accumulated region is the intersection of the clipping ancestors'
rectangles from the `(N+1)`-th onward, seeded by the `(N+1)`-th. -/
theorem clip_ignore_count_semantics :
    (∀ (l : List AncestorInfo) (N : Nat),
        (∀ a ∈ l, normalAnc a ∨ inertAnc a) →
        N < (l.filter clipEnabledB).length →
        getClippingRegion (ClipTy.number N) l =
          (true, interAll (((l.filter clipEnabledB).drop N).map rectOf))) ∧
    (∀ (a : AncestorInfo) (rest : List AncestorInfo) (n : Nat) (o d : Vec2i),
        0 < n → a.clip ≠ ClipTy.none →
        clipLoop (a :: rest) n o d =
          clipLoop rest
            (Nat.max (if clipEnabledB a then n - 1 else n) a.clip.getNumber) o d) := by
  constructor
  · intro l N hl hN
    have hne : ¬(ClipTy.number N = ClipTy.none) := by simp
    have hdrop : (l.filter clipEnabledB).drop N ≠ [] := by
      apply List.ne_nil_of_length_pos
      rw [List.length_drop]
      omega
    obtain ⟨c, rest', hcr⟩ := List.exists_cons_of_ne_nil hdrop
    have hcmem : c ∈ l.filter clipEnabledB := by
      apply List.drop_subset N
      rw [hcr]
      exact List.mem_cons_self c rest'
    have hcnorm : normalAnc c := mem_filter_normal hl hcmem
    have hnn := interAll_dims_nonneg c hcnorm (rest'.map rectOf)
    have hloop := clipLoop_main l N hl hN
    simp only [getClippingRegion, if_neg hne, ClipTy.getNumber]
    simp only [hloop, hcr, List.map_cons]
    simp [hnn.1, hnn.2]
  · intro a rest n o d hn hnone
    exact clipLoop_skip a rest n o d hn hnone

/-- Witness for the amended C1: a three-ancestor all-clipping chain with
target ignore-count `1`. -/
theorem clip_ignore_count_semantics_witness :
    (∀ a ∈ [ancOverflowClip, ancDisjointA, ancDisjointB], normalAnc a ∨ inertAnc a) ∧
    1 < ([ancOverflowClip, ancDisjointA, ancDisjointB].filter clipEnabledB).length ∧
    getClippingRegion (ClipTy.number 1) [ancOverflowClip, ancDisjointA, ancDisjointB] =
      (true, interAll
        ((([ancOverflowClip, ancDisjointA, ancDisjointB].filter clipEnabledB).drop 1).map rectOf)) := by
  have hall : ∀ a ∈ [ancOverflowClip, ancDisjointA, ancDisjointB], normalAnc a ∨ inertAnc a := by
    intro a ha
    simp only [List.mem_cons, List.not_mem_nil, or_false] at ha
    rcases ha with rfl | rfl | rfl
    exacts [Or.inl normal_ancOverflowClip, Or.inl normal_ancDisjointA, Or.inl normal_ancDisjointB]
  exact ⟨hall, by decide,
    clip_ignore_count_semantics.1 [ancOverflowClip, ancDisjointA, ancDisjointB] 1 hall (by decide)⟩

/-! ## Claim C4 -/

/-- Chains whose only two clipping ancestors are `x` then `y` resolve to the
intersection of the two rectangles. -/
theorem clip_two_aux (l₀ l₁ l₂ : List AncestorInfo) (x y : AncestorInfo)
    (h₀ : ∀ c ∈ l₀, inertAnc c) (h₁ : ∀ c ∈ l₁, inertAnc c)
    (h₂ : ∀ c ∈ l₂, inertAnc c) (hx : normalAnc x) (hy : normalAnc y) :
    getClippingRegion ClipTy.auto (l₀ ++ x :: (l₁ ++ y :: l₂)) =
      (true, interRect (rectOf x) (rectOf y)) := by
  have hne : ¬(ClipTy.auto = ClipTy.none) := by simp
  have hall : ∀ c ∈ l₀ ++ x :: (l₁ ++ y :: l₂), normalAnc c ∨ inertAnc c := by
    intro c hc
    simp only [List.mem_append, List.mem_cons] at hc
    rcases hc with hc | hc | hc | hc | hc
    · exact Or.inr (h₀ c hc)
    · exact Or.inl (hc ▸ hx)
    · exact Or.inr (h₁ c hc)
    · exact Or.inl (hc ▸ hy)
    · exact Or.inr (h₂ c hc)
  have hfil : (l₀ ++ x :: (l₁ ++ y :: l₂)).filter clipEnabledB = [x, y] := by
    simp [List.filter_append, List.filter_cons, filter_inert_nil l₀ h₀,
          filter_inert_nil l₁ h₁, filter_inert_nil l₂ h₂, hx.2.1, hy.2.1]
  have hN : 0 < ((l₀ ++ x :: (l₁ ++ y :: l₂)).filter clipEnabledB).length := by
    rw [hfil]
    simp
  have hmain := clipLoop_main (l₀ ++ x :: (l₁ ++ y :: l₂)) 0 hall hN
  rw [hfil] at hmain
  simp only [List.drop_zero, List.map_cons, List.map_nil, interAll,
             List.foldl_cons, List.foldl_nil] at hmain
  have hnn := interRect_dims_nonneg (rectOf x) (rectOf y)
  simp only [getClippingRegion, if_neg hne, ClipTy.getNumber]
  simp only [hmain]
  simp [hnn.1, hnn.2]

/-- **C4**.  On a chain whose only two clipping ancestors are `a` and `b`
(in either order, every other ancestor neither clipping nor carrying a
directive) and whose target carries no ignore directive, the resolved region
is the intersection of the two snapped client rectangles, independent of
which of the two is the outer one; the reported flag is `true` even when the
intersection is empty (its dimensions are then clamped to zero, not reset to
the unset sentinel). -/
theorem clip_two_ancestor_intersection (l₀ l₁ l₂ : List AncestorInfo)
    (a b : AncestorInfo) (hinert : ∀ c ∈ l₀ ++ l₁ ++ l₂, inertAnc c)
    (ha : normalAnc a) (hb : normalAnc b) :
    getClippingRegion ClipTy.auto (l₀ ++ a :: (l₁ ++ b :: l₂)) =
      (true, interRect (rectOf a) (rectOf b)) ∧
    getClippingRegion ClipTy.auto (l₀ ++ b :: (l₁ ++ a :: l₂)) =
      getClippingRegion ClipTy.auto (l₀ ++ a :: (l₁ ++ b :: l₂)) := by
  have h₀ : ∀ c ∈ l₀, inertAnc c := fun c hc =>
    hinert c (by simp [List.mem_append, hc])
  have h₁ : ∀ c ∈ l₁, inertAnc c := fun c hc =>
    hinert c (by simp [List.mem_append, hc])
  have h₂ : ∀ c ∈ l₂, inertAnc c := fun c hc =>
    hinert c (by simp [List.mem_append, hc])
  have hab := clip_two_aux l₀ l₁ l₂ a b h₀ h₁ h₂ ha hb
  have hba := clip_two_aux l₀ l₁ l₂ b a h₀ h₁ h₂ hb ha
  refine ⟨hab, ?_⟩
  rw [hab, hba, interRect_comm (rectOf b) (rectOf a)]

/-- Witness for C4: one inert ancestor followed by the two disjoint clipping
ancestors; the final conjunct shows the empty intersection collapses to
zero-clamped dimensions while the region stays active. -/
theorem clip_two_ancestor_intersection_witness :
    (∀ c ∈ ([ancInert] ++ [] ++ [] : List AncestorInfo), inertAnc c) ∧
    normalAnc ancDisjointA ∧ normalAnc ancDisjointB ∧
    (getClippingRegion ClipTy.auto ([ancInert] ++ ancDisjointA :: ([] ++ ancDisjointB :: [])) =
        (true, interRect (rectOf ancDisjointA) (rectOf ancDisjointB)) ∧
      getClippingRegion ClipTy.auto ([ancInert] ++ ancDisjointB :: ([] ++ ancDisjointA :: [])) =
        getClippingRegion ClipTy.auto ([ancInert] ++ ancDisjointA :: ([] ++ ancDisjointB :: []))) ∧
    (interRect (rectOf ancDisjointA) (rectOf ancDisjointB)).2 = ⟨0, 7⟩ := by
  have hin : ∀ c ∈ ([ancInert] ++ [] ++ [] : List AncestorInfo), inertAnc c := by
    intro c hc
    simp only [List.append_nil, List.mem_cons, List.not_mem_nil, or_false] at hc
    rw [hc]
    exact inert_ancInert
  exact ⟨hin, normal_ancDisjointA, normal_ancDisjointB,
    clip_two_ancestor_intersection [ancInert] [] [] ancDisjointA ancDisjointB
      hin normal_ancDisjointA normal_ancDisjointB,
    by decide⟩

/-! ## Claim C5 -/

/-- Once the first `none`-directive ancestor is reached, the rest of the
chain is irrelevant. -/
theorem clipLoop_none_halt (l₁ : List AncestorInfo) (a : AncestorInfo)
    (l₂ : List AncestorInfo) (ha : a.clip = ClipTy.none)
    (h₁ : ∀ b ∈ l₁, b.clip ≠ ClipTy.none) :
    ∀ (n : Nat) (o d : Vec2i),
      clipLoop (l₁ ++ a :: l₂) n o d = clipLoop (l₁ ++ [a]) n o d := by
  induction l₁ with
  | nil => intro n o d; simp [clipLoop, ha]
  | cons b bs ih =>
    intro n o d
    have hb : ¬(b.clip = ClipTy.none) := h₁ b (List.mem_cons_self b bs)
    simp only [List.cons_append, clipLoop, hb, if_false, decide_eq_true_eq, if_neg hb]
    exact ih (fun x hx => h₁ x (List.mem_cons_of_mem b hx)) _ _ _

/-- **C5**.  A target whose own directive is `none` reports no clipping with
the out-parameters left at the sentinel, whatever the ancestor chain (first
conjunct — the result does not depend on the chain at all, so no ancestor is
consulted); and the first ancestor carrying `none` halts the accumulation:
the result over the full chain equals the result over the chain truncated
right after that ancestor, discarding every later contribution (second
conjunct). -/
theorem clip_none_semantics :
    (∀ l : List AncestorInfo,
        getClippingRegion ClipTy.none l = (false, unsetVec, unsetVec)) ∧
    (∀ (tc : ClipTy) (l₁ : List AncestorInfo) (a : AncestorInfo) (l₂ : List AncestorInfo),
        a.clip = ClipTy.none → (∀ b ∈ l₁, b.clip ≠ ClipTy.none) →
        getClippingRegion tc (l₁ ++ a :: l₂) = getClippingRegion tc (l₁ ++ [a])) := by
  constructor
  · intro l
    simp [getClippingRegion]
  · intro tc l₁ a l₂ ha h₁
    by_cases htc : tc = ClipTy.none
    · simp [getClippingRegion, htc]
    · simp only [getClippingRegion, if_neg htc]
      rw [clipLoop_none_halt l₁ a l₂ ha h₁]

/-- Witness for C5: a `none` ancestor standing between two clipping
ancestors discards the inner one's contribution. -/
theorem clip_none_semantics_witness :
    ancNoneClip.clip = ClipTy.none ∧
    (∀ b ∈ [ancDisjointA], b.clip ≠ ClipTy.none) ∧
    getClippingRegion ClipTy.auto ([ancDisjointA] ++ ancNoneClip :: [ancDisjointB]) =
      getClippingRegion ClipTy.auto ([ancDisjointA] ++ [ancNoneClip]) :=
  ⟨by decide, by decide,
   clip_none_semantics.2 ClipTy.auto [ancDisjointA] ancNoneClip [ancDisjointB]
     (by decide) (by decide)⟩

/-! ## Transform submitter lemmas -/

theorem applyTransform_ptr_eq {α : Type} [DecidableEq α] (st : TransState α)
    (newT : Option (Nat × α)) (h : st.oldPtr = Option.map Prod.fst newT) :
    applyTransform true st newT = (true, Option.none, st) := by
  simp [applyTransform, h]

theorem applyTransform_from_none {α : Type} [DecidableEq α] (st : TransState α)
    (i : Nat) (v : α) (h : st.oldPtr = Option.none) :
    applyTransform true st (Option.some (i, v)) =
      (true, Option.some (Option.some (i, v)), ⟨Option.some i, v⟩) := by
  simp [applyTransform, h]

theorem applyTransform_to_none {α : Type} [DecidableEq α] (st : TransState α)
    (k : Nat) (h : st.oldPtr = Option.some k) :
    applyTransform true st Option.none =
      (true, Option.some Option.none, ⟨Option.none, st.oldValue⟩) := by
  simp [applyTransform, h]

theorem applyTransform_value_eq {α : Type} [DecidableEq α] (st : TransState α)
    (k i : Nat) (v : α) (h : st.oldPtr = Option.some k) (hk : k ≠ i)
    (hv : st.oldValue = v) :
    applyTransform true st (Option.some (i, v)) =
      (true, Option.none, { oldPtr := Option.some i, oldValue := st.oldValue }) := by
  simp [applyTransform, h, hk, hv]

theorem applyTransform_value_ne {α : Type} [DecidableEq α] (st : TransState α)
    (k i : Nat) (v : α) (h : st.oldPtr = Option.some k) (hk : k ≠ i)
    (hv : st.oldValue ≠ v) :
    applyTransform true st (Option.some (i, v)) =
      (true, Option.some (Option.some (i, v)), ⟨Option.some i, v⟩) := by
  simp [applyTransform, h, hk, hv]

/-- Once the cache holds a live identity for value `v`, a run of calls with
transforms all equal to `v` by value submits nothing. -/
theorem runTransforms_synced {α : Type} [DecidableEq α] (v : α) :
    ∀ (ids : List Nat) (st : TransState α), st.oldPtr ≠ Option.none →
      st.oldValue = v →
      (runTransforms true st (ids.map fun i => Option.some (i, v))).2 = [] := by
  intro ids
  induction ids with
  | nil => intro st _ _; simp [runTransforms]
  | cons i rest ih =>
    intro st hp hv
    obtain ⟨k, hk⟩ : ∃ k, st.oldPtr = Option.some k := by
      cases hsp : st.oldPtr with
      | none => exact absurd hsp hp
      | some k => exact ⟨k, rfl⟩
    simp only [List.map_cons, runTransforms]
    by_cases hki : k = i
    · rw [applyTransform_ptr_eq st (Option.some (i, v)) (by simp [hk, hki])]
      simpa using ih st hp hv
    · rw [applyTransform_value_eq st k i v hk hki hv]
      simpa using ih ⟨Option.some i, st.oldValue⟩ (by simp) hv

/-! ## Claim C6 -/

/-- **C6**, counterexample.  First conjunct: with the cache in its initial
state (null identity, cached value `0`), a transform with a fresh identity
but the very value `0` is submitted — the identities differ and the new
value equals the cached value, yet the boundary call is not skipped (the
value check is bypassed whenever either pointer is null).  Second conjunct:
within one pass, the value `7` is submitted twice under different
identities, because an intervening null transform resets the identity cache;
so "at most one boundary submission per distinct value within the pass"
fails as well. -/
theorem apply_transform_counterexample :
    (applyTransform true ({ oldPtr := Option.none, oldValue := (0 : Int) } : TransState Int)
        (Option.some (1, 0))).2.1 = Option.some (Option.some (1, 0)) ∧
    (runTransforms true ({ oldPtr := Option.none, oldValue := (0 : Int) } : TransState Int)
        [Option.some (1, 7), Option.none, Option.some (2, 7)]).2 =
      [Option.some (1, 7), Option.none, Option.some (2, 7)] := by
  constructor <;> decide

/-- **C6** (amended).  A boundary `SetTransform` call submits the new
transform pointer and is issued only when the new identity differs from the
cached one and, in case both the cached and the new identity are non-null,
the new value also differs from the cached value (first conjunct).  A call
whose identity matches the cache is skipped and leaves the cache unchanged
(second conjunct); a call whose identity differs but whose value matches is
skipped whenever the cached identity is non-null (third conjunct).
Consequently, a run of consecutive calls carrying the same transform value
under arbitrary identities, with no null transform in between, issues at
most one boundary submission (fourth conjunct). -/
theorem apply_transform_dedup :
    (∀ (α : Type) [DecidableEq α] (st : TransState α)
        (newT s : Option (Nat × α)),
        (applyTransform true st newT).2.1 = Option.some s →
        s = newT ∧ Option.map Prod.fst newT ≠ st.oldPtr ∧
        (∀ (i j : Nat) (v : α), st.oldPtr = Option.some i →
            newT = Option.some (j, v) → st.oldValue ≠ v)) ∧
    (∀ (α : Type) [DecidableEq α] (st : TransState α) (newT : Option (Nat × α)),
        st.oldPtr = Option.map Prod.fst newT →
        (applyTransform true st newT).2.1 = Option.none ∧
        (applyTransform true st newT).2.2 = st) ∧
    (∀ (α : Type) [DecidableEq α] (st : TransState α) (i j : Nat) (v : α),
        st.oldPtr = Option.some i → st.oldValue = v →
        (applyTransform true st (Option.some (j, v))).2.1 = Option.none) ∧
    (∀ (α : Type) [DecidableEq α] (st : TransState α) (ids : List Nat) (v : α),
        (runTransforms true st (ids.map fun i => Option.some (i, v))).2.length ≤ 1) := by
  refine ⟨?_, ?_, ?_, ?_⟩
  · intro α _ st newT s h
    by_cases hp : st.oldPtr = Option.map Prod.fst newT
    · rw [applyTransform_ptr_eq st newT hp] at h
      exact absurd h (by simp)
    · cases hsp : st.oldPtr with
      | none =>
        cases hnt : newT with
        | none => exact absurd (by rw [hsp, hnt]; rfl) hp
        | some p =>
          obtain ⟨j, v⟩ := p
          subst hnt
          rw [applyTransform_from_none st j v hsp] at h
          simp only [Option.some.injEq] at h
          refine ⟨h.symm, by simp, ?_⟩
          intro i j' v' hi _
          exact Option.noConfusion hi
      | some k =>
        cases hnt : newT with
        | none =>
          subst hnt
          rw [applyTransform_to_none st k hsp] at h
          simp only [Option.some.injEq] at h
          refine ⟨h.symm, by simp, ?_⟩
          intro i j' v' _ hnew
          exact Option.noConfusion hnew
        | some p =>
          obtain ⟨j, v⟩ := p
          subst hnt
          have hkj : k ≠ j := by
            intro hkj
            exact hp (by rw [hsp, hkj]; rfl)
          by_cases hv : st.oldValue = v
          · rw [applyTransform_value_eq st k j v hsp hkj hv] at h
            exact absurd h (by simp)
          · rw [applyTransform_value_ne st k j v hsp hkj hv] at h
            simp only [Option.some.injEq] at h
            refine ⟨h.symm, by simp [Ne.symm hkj], ?_⟩
            intro i j' v' hi hnew
            injection hnew with hnew1
            injection hnew1 with hj' hv'
            rw [← hv']
            exact hv
  · intro α _ st newT hp
    rw [applyTransform_ptr_eq st newT hp]
    exact ⟨rfl, rfl⟩
  · intro α _ st i j v hi hv
    by_cases hij : i = j
    · rw [applyTransform_ptr_eq st (Option.some (j, v)) (by simp [hi, hij])]
    · rw [applyTransform_value_eq st i j v hi hij hv]
  · intro α _ st ids v
    induction ids generalizing st with
    | nil => simp [runTransforms]
    | cons i rest ih =>
      simp only [List.map_cons, runTransforms]
      cases hsp : st.oldPtr with
      | none =>
        rw [applyTransform_from_none st i v hsp]
        have hsync := runTransforms_synced v rest ⟨Option.some i, v⟩ (by simp) rfl
        simp [hsync]
      | some k =>
        by_cases hki : k = i
        · rw [applyTransform_ptr_eq st (Option.some (i, v)) (by simp [hsp, hki])]
          simpa using ih st
        · by_cases hv : st.oldValue = v
          · rw [applyTransform_value_eq st k i v hsp hki hv]
            have hsync := runTransforms_synced v rest ⟨Option.some i, st.oldValue⟩ (by simp) hv
            simp [hsync]
          · rw [applyTransform_value_ne st k i v hsp hki hv]
            have hsync := runTransforms_synced v rest ⟨Option.some i, v⟩ (by simp) rfl
            simp [hsync]

/-- Witness for the amended C6 over `Int` transforms: a fresh non-null
submission, an identity-matched skip, a value-matched skip, and a run of
three equal-valued transforms under distinct identities submitting once. -/
theorem apply_transform_dedup_witness :
    ((applyTransform true ({ oldPtr := Option.some 1, oldValue := (7 : Int) } : TransState Int)
          (Option.some (2, 9))).2.1 = Option.some (Option.some (2, 9)) →
        (Option.some (2, 9) : Option (Nat × Int)) = Option.some (2, 9)) ∧
    ({ oldPtr := Option.some 1, oldValue := (7 : Int) } : TransState Int).oldPtr =
        Option.map Prod.fst (Option.some (1, (9 : Int))) ∧
    (applyTransform true ({ oldPtr := Option.some 1, oldValue := (7 : Int) } : TransState Int)
        (Option.some (1, 9))).2.1 = Option.none ∧
    (applyTransform true ({ oldPtr := Option.some 1, oldValue := (7 : Int) } : TransState Int)
        (Option.some (2, 7))).2.1 = Option.none ∧
    (runTransforms true ({ oldPtr := Option.none, oldValue := (0 : Int) } : TransState Int)
        ([1, 2, 3].map fun i => Option.some (i, (7 : Int)))).2.length ≤ 1 :=
  ⟨fun h => (apply_transform_dedup.1 Int _ (Option.some (2, 9)) (Option.some (2, 9)) h).1,
   by decide,
   (apply_transform_dedup.2.1 Int ({ oldPtr := Option.some 1, oldValue := (7 : Int) })
      (Option.some (1, 9)) (by decide)).1,
   apply_transform_dedup.2.2.1 Int ({ oldPtr := Option.some 1, oldValue := (7 : Int) })
      1 2 7 rfl rfl,
   apply_transform_dedup.2.2.2 Int ({ oldPtr := Option.none, oldValue := (0 : Int) }) [1, 2, 3] 7⟩

/-! ## Claim C7 -/

/-- **C7**.  With a parent present, a `RIGHT` anchor replaces the horizontal
offset by `containing_block.x - (element_margin_width + requested_offset.x)`
(second conjunct), `BOTTOM` symmetrically (third conjunct); in particular
containing-block width 200, margin-area width 50, requested 10 resolve to
140 (fourth conjunct); and the final relative offset still adds the parent's
content position and the element's margin-left/margin-top to the resolved
offset (first conjunct). -/
theorem position_anchor_semantics (env : PosEnv) (st : PosElem) (offset : ℚ × ℚ)
    (anchorRight anchorBottom : Bool) (hp : st.hasParent = true) :
    (positionElement env st offset anchorRight anchorBottom).2.offset =
      Option.some
        (env.parentBox.contentPos.1 +
            (resolveAnchorOffset anchorRight anchorBottom env.parentBox.contentSize
              env.builtBox.marginSize offset).1 + env.builtBox.marginLeft,
         env.parentBox.contentPos.2 +
            (resolveAnchorOffset anchorRight anchorBottom env.parentBox.contentSize
              env.builtBox.marginSize offset).2 + env.builtBox.marginTop) ∧
    (anchorRight = true →
      (resolveAnchorOffset anchorRight anchorBottom env.parentBox.contentSize
          env.builtBox.marginSize offset).1 =
        env.parentBox.contentSize.1 - (env.builtBox.marginSize.1 + offset.1)) ∧
    (anchorBottom = true →
      (resolveAnchorOffset anchorRight anchorBottom env.parentBox.contentSize
          env.builtBox.marginSize offset).2 =
        env.parentBox.contentSize.2 - (env.builtBox.marginSize.2 + offset.2)) ∧
    (resolveAnchorOffset true false (200, 300) (50, 60) (10, 20)).1 = 140 := by
  refine ⟨?_, ?_, ?_, by norm_num [resolveAnchorOffset]⟩
  · simp [positionElement, hp, setElementOffset]
  · intro h
    simp [resolveAnchorOffset, h]
  · intro h
    simp [resolveAnchorOffset, h]

/-- Witness for C7 at the spec's numbers: the anchored offset resolves to
140 and the final stored offset is `(7 + 140 + 5, 8 + 20 + 6)`. -/
theorem position_anchor_semantics_witness :
    posStWit.hasParent = true ∧
    (resolveAnchorOffset true false posEnvWit.parentBox.contentSize
        posEnvWit.builtBox.marginSize (10, 20)).1 = 140 ∧
    (positionElement posEnvWit posStWit (10, 20) true false).2.offset =
      Option.some
        (posEnvWit.parentBox.contentPos.1 +
            (resolveAnchorOffset true false posEnvWit.parentBox.contentSize
              posEnvWit.builtBox.marginSize (10, 20)).1 + posEnvWit.builtBox.marginLeft,
         posEnvWit.parentBox.contentPos.2 +
            (resolveAnchorOffset true false posEnvWit.parentBox.contentSize
              posEnvWit.builtBox.marginSize (10, 20)).2 + posEnvWit.builtBox.marginTop) ∧
    (positionElement posEnvWit posStWit (10, 20) true false).2.offset =
      Option.some (152, 34) :=
  ⟨rfl,
   by norm_num [resolveAnchorOffset, posEnvWit],
   (position_anchor_semantics posEnvWit posStWit (10, 20) true false rfl).1,
   by norm_num [positionElement, posEnvWit, posStWit, resolveAnchorOffset, setElementOffset]⟩

/-! ## Claim C8 -/

/-- **C8**.  `PositionElement` returns `false` exactly when the element has
no parent node; in that case the element state — box and offset included —
is returned untouched; with a parent it returns `true`. -/
theorem position_parent_failure (env : PosEnv) (st : PosElem) (offset : ℚ × ℚ)
    (anchorRight anchorBottom : Bool) :
    ((positionElement env st offset anchorRight anchorBottom).1 = false ↔
        st.hasParent = false) ∧
    (st.hasParent = false →
        (positionElement env st offset anchorRight anchorBottom).2 = st) ∧
    (st.hasParent = true →
        (positionElement env st offset anchorRight anchorBottom).1 = true) := by
  cases hp : st.hasParent <;> simp [positionElement, hp]

/-- Witness for C8 on a parentless element already carrying a box and an
offset: the call fails and both survive unchanged. -/
theorem position_parent_failure_witness :
    ((positionElement posEnvWit posStOrphan (10, 20) true false).1 = false ↔
        posStOrphan.hasParent = false) ∧
    (posStOrphan.hasParent = false →
        (positionElement posEnvWit posStOrphan (10, 20) true false).2 = posStOrphan) ∧
    (posStOrphan.hasParent = true →
        (positionElement posEnvWit posStOrphan (10, 20) true false).1 = true) :=
  position_parent_failure posEnvWit posStOrphan (10, 20) true false

/-! ## Claim C9 -/

/-- **C9**.  For a resolvable context the call reports success; the active
region is rewritten or the render boundary invoked only when the resolved
clip on/off state differs from the active one, or clipping is on and its
origin or dimensions differ from the active region's (second conjunct); and
when the resolved region equals the active one, the context and the
boundary's scissor state are left untouched (third conjunct). -/
theorem set_clipping_region_delta (ri : Bool)
    (element : Option (ClipTy × List AncestorInfo)) (c : CtxState) :
    (setClippingRegion ri element c).1 = true ∧
    (((setClippingRegion ri element c).2.1 ≠ c ∨
        (setClippingRegion ri element c).2.2 ≠ []) →
      ((getActiveClipRegion c).1 ≠ (resolveElementClip element).1 ∨
        ((resolveElementClip element).1 = true ∧
          ((resolveElementClip element).2.1 ≠ (getActiveClipRegion c).2.1 ∨
            (resolveElementClip element).2.2 ≠ (getActiveClipRegion c).2.2)))) ∧
    (((getActiveClipRegion c).1 = (resolveElementClip element).1 ∧
        ((resolveElementClip element).1 = true →
          (resolveElementClip element).2.1 = (getActiveClipRegion c).2.1 ∧
          (resolveElementClip element).2.2 = (getActiveClipRegion c).2.2)) →
      (setClippingRegion ri element c).2.1 = c ∧
      (setClippingRegion ri element c).2.2 = []) := by
  by_cases hcond :
      (getActiveClipRegion c).1 ≠ (resolveElementClip element).1 ∨
        ((resolveElementClip element).1 = true ∧
          ((resolveElementClip element).2.1 ≠ (getActiveClipRegion c).2.1 ∨
            (resolveElementClip element).2.2 ≠ (getActiveClipRegion c).2.2))
  · have hr : setClippingRegion ri element c =
        (true,
         setActiveClipRegion c (resolveElementClip element).2.1 (resolveElementClip element).2.2,
         applyActiveClipRegion ri
           (setActiveClipRegion c (resolveElementClip element).2.1 (resolveElementClip element).2.2)) := by
      simp only [setClippingRegion]
      rw [if_pos hcond]
    refine ⟨by rw [hr], fun _ => hcond, ?_⟩
    intro hyp
    exfalso
    rcases hcond with h1 | h2
    · exact h1 hyp.1
    · rcases hyp.2 h2.1 with ⟨ho, hd⟩
      rcases h2.2 with h | h
      · exact h ho
      · exact h hd
  · have hr : setClippingRegion ri element c = (true, c, []) := by
      simp only [setClippingRegion]
      rw [if_neg hcond]
    refine ⟨by rw [hr], ?_, fun _ => ⟨by rw [hr], by rw [hr]⟩⟩
    intro hne
    rw [hr] at hne
    rcases hne with h | h
    · exact absurd rfl h
    · exact absurd rfl h

/-- Witness for C9: a null element against a context with no active clip —
the resolved and active regions agree, so nothing is rewritten or pushed. -/
theorem set_clipping_region_delta_witness :
    (setClippingRegion true Option.none ctxWit).1 = true ∧
    (((setClippingRegion true Option.none ctxWit).2.1 ≠ ctxWit ∨
        (setClippingRegion true Option.none ctxWit).2.2 ≠ []) →
      ((getActiveClipRegion ctxWit).1 ≠ (resolveElementClip Option.none).1 ∨
        ((resolveElementClip Option.none).1 = true ∧
          ((resolveElementClip Option.none).2.1 ≠ (getActiveClipRegion ctxWit).2.1 ∨
            (resolveElementClip Option.none).2.2 ≠ (getActiveClipRegion ctxWit).2.2)))) ∧
    (((getActiveClipRegion ctxWit).1 = (resolveElementClip Option.none).1 ∧
        ((resolveElementClip Option.none).1 = true →
          (resolveElementClip Option.none).2.1 = (getActiveClipRegion ctxWit).2.1 ∧
          (resolveElementClip Option.none).2.2 = (getActiveClipRegion ctxWit).2.2)) →
      (setClippingRegion true Option.none ctxWit).2.1 = ctxWit ∧
      (setClippingRegion true Option.none ctxWit).2.2 = []) :=
  set_clipping_region_delta true Option.none ctxWit

/-! ## Element search lemmas -/

theorem descList_append (l₁ l₂ : List ETree) :
    ETree.descList (l₁ ++ l₂) = ETree.descList l₁ ++ ETree.descList l₂ := by
  induction l₁ with
  | nil => simp [ETree.descList]
  | cons t ts ih => simp [ETree.descList, ih]

theorem bfsFind_miss (id : String) :
    ∀ q : List ETree, (∀ x ∈ ETree.descList q, x.eid ≠ id) →
      bfsFind id q = Option.none := by
  have H : ∀ (n : Nat) (q : List ETree), ETree.sizeList q ≤ n →
      (∀ x ∈ ETree.descList q, x.eid ≠ id) → bfsFind id q = Option.none := by
    intro n
    induction n with
    | zero =>
      intro q hq _
      cases q with
      | nil => simp [bfsFind]
      | cons e rest =>
        exfalso
        have h1 := ETree.sizeList_children_lt e
        simp only [ETree.sizeList] at hq
        omega
    | succ n ih =>
      intro q hq hmiss
      cases q with
      | nil => simp [bfsFind]
      | cons e rest =>
        have he : e.eid ≠ id := hmiss e (by simp [ETree.descList])
        simp only [bfsFind, if_neg he]
        apply ih
        · have h2 := ETree.queue_measure_lt e rest
          simp only [ETree.sizeList] at hq h2 ⊢
          omega
        · intro x hx
          apply hmiss
          rw [descList_append] at hx
          simp only [ETree.descList, List.mem_cons, List.mem_append]
          rcases List.mem_append.mp hx with h | h
          · exact Or.inr (Or.inr h)
          · exact Or.inr (Or.inl h)
  intro q
  exact H (ETree.sizeList q) q le_rfl

theorem bfsCollect_mem (p : ETree → Bool) :
    ∀ (q acc : List ETree) (x : ETree), x ∈ bfsCollect p acc q →
      x ∈ acc ∨ x ∈ ETree.descList q := by
  have H : ∀ (n : Nat) (q : List ETree), ETree.sizeList q ≤ n →
      ∀ (acc : List ETree) (x : ETree), x ∈ bfsCollect p acc q →
        x ∈ acc ∨ x ∈ ETree.descList q := by
    intro n
    induction n with
    | zero =>
      intro q hq acc x hx
      cases q with
      | nil => exact Or.inl (by simpa [bfsCollect] using hx)
      | cons e rest =>
        exfalso
        have h1 := ETree.sizeList_children_lt e
        simp only [ETree.sizeList] at hq
        omega
    | succ n ih =>
      intro q hq acc x hx
      cases q with
      | nil => exact Or.inl (by simpa [bfsCollect] using hx)
      | cons e rest =>
        simp only [bfsCollect] at hx
        have hmeas : ETree.sizeList (rest ++ e.children) ≤ n := by
          have h2 := ETree.queue_measure_lt e rest
          simp only [ETree.sizeList] at hq h2 ⊢
          omega
        rcases ih (rest ++ e.children) hmeas _ x hx with hacc | hdesc
        · by_cases hpe : p e = true
          · rw [if_pos hpe] at hacc
            rcases List.mem_append.mp hacc with h | h
            · exact Or.inl h
            · simp only [List.mem_singleton] at h
              exact Or.inr (by simp [ETree.descList, h])
          · rw [if_neg hpe] at hacc
            exact Or.inl hacc
        · rw [descList_append] at hdesc
          simp only [ETree.descList, List.mem_cons, List.mem_append]
          rcases List.mem_append.mp hdesc with h | h
          · exact Or.inr (Or.inr (Or.inr h))
          · exact Or.inr (Or.inr (Or.inl h))
  intro q acc x
  exact H (ETree.sizeList q) q le_rfl acc x

theorem bfsCollect_miss (p : ETree → Bool) :
    ∀ q acc : List ETree, (∀ x ∈ ETree.descList q, p x = false) →
      bfsCollect p acc q = acc := by
  have H : ∀ (n : Nat) (q : List ETree), ETree.sizeList q ≤ n →
      ∀ acc : List ETree, (∀ x ∈ ETree.descList q, p x = false) →
        bfsCollect p acc q = acc := by
    intro n
    induction n with
    | zero =>
      intro q hq acc _
      cases q with
      | nil => simp [bfsCollect]
      | cons e rest =>
        exfalso
        have h1 := ETree.sizeList_children_lt e
        simp only [ETree.sizeList] at hq
        omega
    | succ n ih =>
      intro q hq acc hmiss
      cases q with
      | nil => simp [bfsCollect]
      | cons e rest =>
        have hpe : p e = false := hmiss e (by simp [ETree.descList])
        have hmeas : ETree.sizeList (rest ++ e.children) ≤ n := by
          have h2 := ETree.queue_measure_lt e rest
          simp only [ETree.sizeList] at hq h2 ⊢
          omega
        simp only [bfsCollect, hpe, Bool.false_eq_true, if_false]
        apply ih (rest ++ e.children) hmeas
        intro x hx
        apply hmiss
        rw [descList_append] at hx
        simp only [ETree.descList, List.mem_cons, List.mem_append]
        rcases List.mem_append.mp hx with h | h
        · exact Or.inr (Or.inr h)
        · exact Or.inr (Or.inl h)
  intro q acc
  exact H (ETree.sizeList q) q le_rfl acc

theorem size_le_of_mem_descList :
    ∀ (q : List ETree) (x : ETree), x ∈ ETree.descList q →
      ETree.size x ≤ ETree.sizeList q := by
  have H : ∀ (n : Nat) (q : List ETree), ETree.sizeList q ≤ n →
      ∀ x : ETree, x ∈ ETree.descList q → ETree.size x ≤ ETree.sizeList q := by
    intro n
    induction n with
    | zero =>
      intro q hq x hx
      cases q with
      | nil => simp [ETree.descList] at hx
      | cons e rest =>
        exfalso
        have h1 := ETree.sizeList_children_lt e
        simp only [ETree.sizeList] at hq
        omega
    | succ n ih =>
      intro q hq x hx
      cases q with
      | nil => simp [ETree.descList] at hx
      | cons e rest =>
        have h1 := ETree.sizeList_children_lt e
        simp only [ETree.sizeList] at hq
        simp only [ETree.descList, List.mem_cons, List.mem_append] at hx
        simp only [ETree.sizeList]
        rcases hx with rfl | hx | hx
        · omega
        · have hc := ih e.children (by omega) x hx
          omega
        · have hr := ih rest (by omega) x hx
          omega
  intro q x
  exact H (ETree.sizeList q) q le_rfl x

theorem ne_root_of_mem_children_desc {root x : ETree}
    (hx : x ∈ ETree.descList root.children) : x ≠ root := by
  intro he
  have h1 := size_le_of_mem_descList root.children x hx
  have h2 := ETree.sizeList_children_lt root
  rw [he] at h1
  omega

/-! ## Claim C10 -/

/-- **C10**.  `GetElementById` seeds its breadth-first queue with the root
itself, so a root whose id matches is returned whatever its descendants hold
(first conjunct), and a tree with no matching id yields a null result, not
an error (second conjunct).  `GetElementsByTagName` and
`GetElementsByClassName` seed the queue with the root's children only, so
every collected element is a proper descendant and never the root itself
(third and fifth conjuncts), and a miss leaves the output list exactly as it
was passed in (fourth and sixth conjuncts). -/
theorem element_search_semantics :
    (∀ (root : ETree) (id : String), root.eid = id →
        getElementById root id = Option.some root) ∧
    (∀ (root : ETree) (id : String),
        (∀ x ∈ ETree.descList [root], x.eid ≠ id) →
        getElementById root id = Option.none) ∧
    (∀ (root : ETree) (tag : String) (x : ETree),
        x ∈ getElementsByTagName [] root tag →
        x ∈ ETree.descList root.children ∧ x ≠ root) ∧
    (∀ (elements : List ETree) (root : ETree) (tag : String),
        (∀ x ∈ ETree.descList root.children, x.tag ≠ tag) →
        getElementsByTagName elements root tag = elements) ∧
    (∀ (root : ETree) (className : String) (x : ETree),
        x ∈ getElementsByClassName [] root className →
        x ∈ ETree.descList root.children ∧ x ≠ root) ∧
    (∀ (elements : List ETree) (root : ETree) (className : String),
        (∀ x ∈ ETree.descList root.children, ¬className ∈ x.classes) →
        getElementsByClassName elements root className = elements) := by
  refine ⟨?_, ?_, ?_, ?_, ?_, ?_⟩
  · intro root id h
    simp [getElementById, bfsFind, h]
  · intro root id h
    exact bfsFind_miss id [root] h
  · intro root tag x hx
    have hm := bfsCollect_mem (fun e => decide (e.tag = tag)) root.children [] x hx
    simp only [List.not_mem_nil, false_or] at hm
    exact ⟨hm, ne_root_of_mem_children_desc hm⟩
  · intro elements root tag h
    exact bfsCollect_miss (fun e => decide (e.tag = tag)) root.children elements
      fun x hx => by simp [h x hx]
  · intro root className x hx
    have hm := bfsCollect_mem (fun e => decide (className ∈ e.classes)) root.children [] x hx
    simp only [List.not_mem_nil, false_or] at hm
    exact ⟨hm, ne_root_of_mem_children_desc hm⟩
  · intro elements root className h
    exact bfsCollect_miss (fun e => decide (className ∈ e.classes)) root.children elements
      fun x hx => by simp [h x hx]

/-- Witness for C10 on a two-node tree whose root and child share tag and
class: the root is found by id (even though the child also exists), a
missing id yields null, the tag/class searches return only the child even
though the root matches too, and misses leave the output list untouched. -/
theorem element_search_semantics_witness :
    treeWit.eid = "r" ∧
    getElementById treeWit "r" = Option.some treeWit ∧
    (∀ x ∈ ETree.descList [treeWit], x.eid ≠ "zzz") ∧
    getElementById treeWit "zzz" = Option.none ∧
    (childWit ∈ getElementsByTagName [] treeWit "div" ∧
      childWit ∈ ETree.descList treeWit.children ∧ childWit ≠ treeWit) ∧
    (∀ x ∈ ETree.descList treeWit.children, x.tag ≠ "nope") ∧
    getElementsByTagName [treeWit] treeWit "nope" = [treeWit] ∧
    (childWit ∈ getElementsByClassName [] treeWit "x" ∧ childWit ≠ treeWit) ∧
    (∀ x ∈ ETree.descList treeWit.children, ¬"y" ∈ x.classes) ∧
    getElementsByClassName [treeWit] treeWit "y" = [treeWit] := by
  have hdesc : ETree.descList [treeWit] = [treeWit, childWit] := by
    simp [ETree.descList, treeWit, childWit, ETree.children]
  have hdescc : ETree.descList treeWit.children = [childWit] := by
    simp [ETree.descList, treeWit, childWit, ETree.children]
  have hmiss1 : ∀ x ∈ ETree.descList [treeWit], x.eid ≠ "zzz" := by
    rw [hdesc]
    intro x hx
    simp only [List.mem_cons, List.not_mem_nil, or_false] at hx
    rcases hx with rfl | rfl <;> simp [treeWit, childWit, ETree.eid]
  have hmiss2 : ∀ x ∈ ETree.descList treeWit.children, x.tag ≠ "nope" := by
    rw [hdescc]
    intro x hx
    simp only [List.mem_cons, List.not_mem_nil, or_false] at hx
    rw [hx]
    simp [childWit, ETree.tag]
  have hmiss3 : ∀ x ∈ ETree.descList treeWit.children, ¬"y" ∈ x.classes := by
    rw [hdescc]
    intro x hx
    simp only [List.mem_cons, List.not_mem_nil, or_false] at hx
    rw [hx]
    simp [childWit, ETree.classes]
  have htag : childWit ∈ getElementsByTagName [] treeWit "div" := by
    simp [getElementsByTagName, bfsCollect, treeWit, childWit, ETree.children, ETree.tag]
  have hcls : childWit ∈ getElementsByClassName [] treeWit "x" := by
    simp [getElementsByClassName, bfsCollect, treeWit, childWit, ETree.children, ETree.classes]
  refine ⟨rfl, element_search_semantics.1 treeWit "r" rfl, hmiss1,
    element_search_semantics.2.1 treeWit "zzz" hmiss1,
    ⟨htag, (element_search_semantics.2.2.1 treeWit "div" childWit htag).1,
      (element_search_semantics.2.2.1 treeWit "div" childWit htag).2⟩,
    hmiss2, element_search_semantics.2.2.2.1 [treeWit] treeWit "nope" hmiss2,
    ⟨hcls, (element_search_semantics.2.2.2.2.1 treeWit "x" childWit hcls).2⟩,
    hmiss3, element_search_semantics.2.2.2.2.2 [treeWit] treeWit "y" hmiss3⟩

/-! ## Data binding lemmas -/

/-- Discovery consults only the factory: two environments whose factory
components agree discover identical candidate lists over any attribute list,
whatever their initializers do. -/
theorem discover_factory_eq (env₁ env₂ : BindEnv) (structural : Bool)
    (innerRml : String) (hV : env₁.instanceView = env₂.instanceView)
    (hC : env₁.instanceController = env₂.instanceController)
    (hS : env₁.isStructuralView = env₂.isStructuralView) :
    ∀ attrs : List (String × String),
      discover env₁ structural innerRml attrs = discover env₂ structural innerRml attrs := by
  intro attrs
  induction attrs with
  | nil => rfl
  | cons attr rest ih =>
    cases hpa : parseDataAttribute attr.1 with
    | none => simp only [discover, hpa, ih]
    | some tm =>
      obtain ⟨ty, m⟩ := tm
      cases structural with
      | true => simp [discover, hpa, hV, hC, hS, ih]
      | false => simp [discover, hpa, hV, hC, hS, ih]

/-- In non-structural mode, any attribute whose parsed type names a
structural view cancels the whole discovery. -/
theorem discover_cancel (env : BindEnv) (innerRml : String) :
    ∀ attrs : List (String × String),
      (∃ a ∈ attrs, ∃ ty m, parseDataAttribute a.1 = Option.some (ty, m) ∧
          env.isStructuralView ty = true) →
      discover env false innerRml attrs = Option.none := by
  intro attrs
  induction attrs with
  | nil => intro h; simp at h
  | cons attr rest ih =>
    intro h
    rcases h with ⟨a, ha, ty, m, hpa, hst⟩
    rcases List.mem_cons.mp ha with rfl | hmem
    · simp only [discover, hpa, Bool.false_eq_true, if_false, hst, if_true]
    · have hrest := ih ⟨a, hmem, ty, m, hpa, hst⟩
      cases hph : parseDataAttribute attr.1 with
      | none => simp only [discover, hph, hrest]
      | some tm =>
        obtain ⟨ty', m'⟩ := tm
        by_cases hst' : env.isStructuralView ty' = true
        · simp only [discover, hph, Bool.false_eq_true, if_false, hst', if_true]
        · rw [Bool.not_eq_true] at hst'
          simp only [discover, hph, Bool.false_eq_true, if_false, hst', hrest,
                     Option.map_none']

/-- The view half of a candidate appends to the trace exactly the planned
view call, whatever the initializer answers. -/
theorem runViewInit_trace (env : BindEnv) (i : VCInit) (p : Phase2) :
    (runViewInit env i p).trace.map projCall =
      p.trace.map projCall ++
        (if i.hasView then [(true, i.type, i.expression, i.modifierOrInnerRml)] else []) := by
  cases h : i.hasView <;> simp [runViewInit, h, projCall]

/-- The controller half of a candidate appends to the trace exactly the
planned controller call. -/
theorem runControllerInit_trace (env : BindEnv) (i : VCInit) (p : Phase2) :
    (runControllerInit env i p).trace.map projCall =
      p.trace.map projCall ++
        (if i.hasController then [(false, i.type, i.expression, i.modifierOrInnerRml)] else []) := by
  cases h : i.hasController <;> simp [runControllerInit, h, projCall]

/-- Phase two makes exactly the planned calls of the side list, in order:
the projected trace is determined by the candidates alone. -/
theorem runInits_trace (env : BindEnv) :
    ∀ (l : List VCInit) (p : Phase2),
      (runInits env l p).trace.map projCall = p.trace.map projCall ++ plannedCalls l := by
  intro l
  induction l with
  | nil => intro p; simp [runInits, plannedCalls]
  | cons i rest ih =>
    intro p
    simp only [runInits, plannedCalls]
    rw [ih, runControllerInit_trace, runViewInit_trace]
    simp [List.append_assoc]

/-- The view half's contribution to trace and result flag. -/
theorem runViewInit_spec (env : BindEnv) (i : VCInit) (p : Phase2) :
    ∃ t : List InitCall, (runViewInit env i p).trace = p.trace ++ t ∧
      (runViewInit env i p).result = (p.result || t.any fun c => c.success) := by
  cases h : i.hasView
  · exact ⟨[], by simp [runViewInit, h]⟩
  · exact ⟨[{ isView := true, type := i.type, expression := i.expression,
              modifierOrInnerRml := i.modifierOrInnerRml,
              success := (env.viewInit i.type i.expression i.modifierOrInnerRml
                p.state.attrs).1 }],
      by simp [runViewInit, h]⟩

/-- The controller half's contribution to trace and result flag. -/
theorem runControllerInit_spec (env : BindEnv) (i : VCInit) (p : Phase2) :
    ∃ t : List InitCall, (runControllerInit env i p).trace = p.trace ++ t ∧
      (runControllerInit env i p).result = (p.result || t.any fun c => c.success) := by
  cases h : i.hasController
  · exact ⟨[], by simp [runControllerInit, h]⟩
  · exact ⟨[{ isView := false, type := i.type, expression := i.expression,
              modifierOrInnerRml := i.modifierOrInnerRml,
              success := (env.controllerInit i.type i.expression i.modifierOrInnerRml
                p.state.attrs).1 }],
      by simp [runControllerInit, h]⟩

/-- Phase two extends the trace, and the result flag is the disjunction of
the incoming flag with the successes of the calls it made. -/
theorem runInits_spec (env : BindEnv) :
    ∀ (l : List VCInit) (p : Phase2),
      ∃ t : List InitCall, (runInits env l p).trace = p.trace ++ t ∧
        (runInits env l p).result = (p.result || t.any fun c => c.success) := by
  intro l
  induction l with
  | nil => intro p; exact ⟨[], by simp [runInits]⟩
  | cons i rest ih =>
    intro p
    obtain ⟨t₁, ht₁, hr₁⟩ := runViewInit_spec env i p
    obtain ⟨t₂, ht₂, hr₂⟩ := runControllerInit_spec env i (runViewInit env i p)
    obtain ⟨t₃, ht₃, hr₃⟩ := ih (runControllerInit env i (runViewInit env i p))
    refine ⟨t₁ ++ t₂ ++ t₃, ?_, ?_⟩
    · simp only [runInits, ht₃, ht₂, ht₁, List.append_assoc]
    · simp only [runInits, hr₃, hr₂, hr₁, List.any_append, Bool.or_assoc]

/-! ## Claim C2 -/

/-- **C2**.  Discovery is a pure function of the element's initial attribute
list and the factory: two environments with the same factory but arbitrary,
differently-mutating initializers drive the very same sequence of
`Initialize` calls (same kind, type, expression and modifier, in the same
order) on any element with a data model.  In particular an initializer that
adds or removes attributes cannot change which attributes are scanned, nor
which candidates are initialized, within the same call. -/
theorem discovery_mutation_safety (env₁ env₂ : BindEnv) (structural : Bool)
    (innerRml : String) (st : BindState) (hdm : st.hasDataModel = true)
    (hV : env₁.instanceView = env₂.instanceView)
    (hC : env₁.instanceController = env₂.instanceController)
    (hS : env₁.isStructuralView = env₂.isStructuralView) :
    (applyDataViewsControllersInternal env₁ structural innerRml st).2.2.map projCall =
    (applyDataViewsControllersInternal env₂ structural innerRml st).2.2.map projCall := by
  have hdisc := discover_factory_eq env₁ env₂ structural innerRml hV hC hS st.attrs
  simp only [applyDataViewsControllersInternal, hdm, if_true]
  cases hd : discover env₁ structural innerRml st.attrs with
  | none =>
    rw [hdisc] at hd
    simp [hd, ← hdisc]
  | some l =>
    have hd₂ : discover env₂ structural innerRml st.attrs = Option.some l := by
      rw [← hdisc]
      exact hd
    rw [hdisc] at hd
    simp only [hd, hd₂]
    rw [runInits_trace env₁ l { result := false, state := st, trace := [] },
        runInits_trace env₂ l { result := false, state := st, trace := [] }]

/-- Witness for C2: the two fixture environments share the factory but their
initializers differ in both success verdicts and attribute rewriting; the
projected call traces coincide. -/
theorem discovery_mutation_safety_witness :
    stWit.hasDataModel = true ∧
    envWitA.instanceView = envWitB.instanceView ∧
    envWitA.instanceController = envWitB.instanceController ∧
    envWitA.isStructuralView = envWitB.isStructuralView ∧
    (applyDataViewsControllersInternal envWitA false "" stWit).2.2.map projCall =
      (applyDataViewsControllersInternal envWitB false "" stWit).2.2.map projCall :=
  ⟨rfl, rfl, rfl, rfl,
   discovery_mutation_safety envWitA envWitB false "" stWit rfl rfl rfl rfl⟩

/-! ## Claim C3 -/

/-- **C3**.  For an element with a data model, in non-structural mode: an
attribute whose parsed type names a structural view cancels the whole
operation — the result is `false`, the element/model state is untouched and
no `Initialize` call is made (first conjunct); the call returns `true`
exactly when some performed `Initialize` call succeeded (second conjunct);
and whenever discovery completes, every discovered candidate is initialized
— the performed calls are exactly the planned calls of the full side list,
so one candidate's failure never drops the remaining candidates (third
conjunct). -/
theorem apply_dvc_result_semantics (env : BindEnv) (st : BindState)
    (hdm : st.hasDataModel = true) :
    ((∃ a ∈ st.attrs, ∃ ty m, parseDataAttribute a.1 = Option.some (ty, m) ∧
        env.isStructuralView ty = true) →
      applyDataViewsControllers env st = (false, st, [])) ∧
    ((applyDataViewsControllers env st).1 = true ↔
      ∃ c ∈ (applyDataViewsControllers env st).2.2, c.success = true) ∧
    (∀ inits : List VCInit, discover env false "" st.attrs = Option.some inits →
      (applyDataViewsControllers env st).2.2.map projCall = plannedCalls inits) := by
  refine ⟨?_, ?_, ?_⟩
  · intro h
    have hc := discover_cancel env "" st.attrs h
    simp [applyDataViewsControllers, applyDataViewsControllersInternal, hdm, hc]
  · simp only [applyDataViewsControllers, applyDataViewsControllersInternal, hdm, if_true]
    cases hd : discover env false "" st.attrs with
    | none => simp
    | some l =>
      obtain ⟨t, ht, hr⟩ := runInits_spec env l { result := false, state := st, trace := [] }
      simp only [ht, hr, List.nil_append, Bool.false_or]
      rw [List.any_eq_true]
  · intro inits hd
    simp only [applyDataViewsControllers, applyDataViewsControllersInternal, hdm, if_true, hd]
    rw [runInits_trace env inits { result := false, state := st, trace := [] }]
    simp

/-- Witness for C3 with the fixture element: a structural `data-for`
attribute cancels everything; on the plain element the result is `true` iff
some call succeeded; and the performed calls equal the planned calls of the
discovered side list. -/
theorem apply_dvc_result_semantics_witness :
    stWit.hasDataModel = true ∧
    (({ stWit with attrs := stWit.attrs ++ [("data-for", "it : list")] } : BindState).hasDataModel = true ∧
      (∃ a ∈ ({ stWit with attrs := stWit.attrs ++ [("data-for", "it : list")] } : BindState).attrs,
        ∃ ty m, parseDataAttribute a.1 = Option.some (ty, m) ∧
          envWitA.isStructuralView ty = true) ∧
      applyDataViewsControllers envWitA
          { stWit with attrs := stWit.attrs ++ [("data-for", "it : list")] } =
        (false, { stWit with attrs := stWit.attrs ++ [("data-for", "it : list")] }, [])) ∧
    ((applyDataViewsControllers envWitA stWit).1 = true ↔
      ∃ c ∈ (applyDataViewsControllers envWitA stWit).2.2, c.success = true) ∧
    (∀ inits : List VCInit, discover envWitA false "" stWit.attrs = Option.some inits →
      (applyDataViewsControllers envWitA stWit).2.2.map projCall = plannedCalls inits) := by
  have hstruct : ∃ a ∈ ({ stWit with attrs := stWit.attrs ++ [("data-for", "it : list")] } : BindState).attrs,
      ∃ ty m, parseDataAttribute a.1 = Option.some (ty, m) ∧
        envWitA.isStructuralView ty = true := by
    refine ⟨("data-for", "it : list"), by simp [stWit], "for", "", ?_, by decide⟩
    decide
  exact ⟨rfl,
    ⟨rfl, hstruct,
      (apply_dvc_result_semantics envWitA
        { stWit with attrs := stWit.attrs ++ [("data-for", "it : list")] } rfl).1 hstruct⟩,
    (apply_dvc_result_semantics envWitA stWit rfl).2.1,
    (apply_dvc_result_semantics envWitA stWit rfl).2.2⟩

end RmlVerify
